import Mathlib

/-!
Shallow embedding of the portfolio-analysis scripts (`analyze_portfolio.py`
and the companion cleaner `format_fidelity.py`).

Modelling conventions:
* Machine floats of the source are modelled as exact rationals (`ℚ`).
* Spreadsheet cells are modelled as already-ingested Lean values; a cell that
  `pandas` would read as NaN is an `Option.none`.
* The wall clock (`datetime.now()`) is passed in explicitly as a calendar
  date `PDate` (taken at midnight, so a whole-day difference is exact).
* The result of `pd.to_datetime` on an arbitrary spreadsheet cell (the
  explicit `Maturity Date` column) is pre-parsed into `Option (Option PDate)`:
  `none` = cell is NaN/absent, `some none` = present but the parse raises,
  `some (some d)` = parses to the calendar date `d`.
* Python exceptions that the source catches correspond to `Option.none`
  results of the parsing helpers; the categorizer itself is a total function,
  which is how "never raises" is expressed in the embedding.
-/

/-- Does the first list start with the second (character-wise)?  Models
Python's `str.startswith` restricted to lists of characters; an empty second
list always matches, as in Python. -/
def listStartsWith : List Char → List Char → Bool
  | _, [] => true
  | [], _ :: _ => false
  | a :: as, b :: bs => a == b && listStartsWith as bs

/-- Substring containment on character lists: models Python's `needle in
haystack` for strings (the empty needle is contained in everything). -/
def containsSub (needle : List Char) : List Char → Bool
  | [] => listStartsWith [] needle
  | c :: t => listStartsWith (c :: t) needle || containsSub needle t

/-- Models Python's `s.endswith(t)` (the empty suffix always matches). -/
def strEndsWith (s t : String) : Bool :=
  listStartsWith s.toList.reverse t.toList.reverse

/-- One row of the `Config_TickerMap` tab: `{Rule Type, Parameter, Master
Category}` (`analyze_portfolio.py`, used throughout `categorize_holding`).
All three cells are modelled as strings, matching how `categorize_holding`
consumes them on every path the claims exercise. -/
structure CategoryRule where
  ruleType : String
  parameter : String
  masterCategory : String
deriving DecidableEq

/-- A calendar date (proleptic Gregorian), the value `pd.to_datetime`
produces; the embedding does not require the fields to denote a valid
calendar day except where a parser constructs them. -/
structure PDate where
  year : Int
  month : Nat
  day : Nat
deriving DecidableEq

/-- One holding row of a `Data_*` tab: `{Symbol, Description, Maturity Date?,
Current Value}`.  `maturityDate` is the pre-parsed `pd.to_datetime` outcome of
the `Maturity Date` cell (see the conventions above); `currentValue` is the
already-numeric `Current Value`. -/
structure Holding where
  symbol : String
  description : String
  maturityDate : Option (Option PDate)
  currentValue : ℚ
deriving DecidableEq

/-- Serial day number of a Gregorian calendar date (days since 1970-01-01,
the standard civil-from-days arithmetic); used to model the subtraction
`(maturity_dt - datetime.now()).days` with both datetimes at midnight. -/
def civilDays (dt : PDate) : Int :=
  let y : Int := if dt.month ≤ 2 then dt.year - 1 else dt.year
  let era : Int := (if 0 ≤ y then y else y - 399) / 400
  let yoe : Int := y - era * 400
  let doy : Int := (((153 * ((dt.month + 9) % 12) + 2) / 5 + dt.day : Nat) : Int) - 1
  let doe : Int := yoe * 365 + yoe / 4 - yoe / 100 + doy
  era * 146097 + doe - 719468

/-- Numeric value of an ASCII digit character, `none` for a non-digit;
models the character class `\d` of the date regex in
`categorize_holding` (line 41). -/
def digitVal? (c : Char) : Option Nat :=
  if '0' ≤ c && c ≤ '9' then some (c.toNat - 48) else none

/-- Greedy alternatives for one `\d{1,2}` field of the regex
`\d{1,2}/\d{1,2}/\d{4}`: first the two-digit reading, then the one-digit
reading, each with the unconsumed remainder (regex backtracking order). -/
def matchField : List Char → List (Nat × List Char)
  | a :: b :: rest =>
    match digitVal? a, digitVal? b with
    | some va, some vb => [(va * 10 + vb, rest), (va, b :: rest)]
    | some va, none => [(va, b :: rest)]
    | none, _ => []
  | [a] =>
    match digitVal? a with
    | some v => [(v, [])]
    | none => []
  | [] => []

/-- The `\d{4}` year field of the date regex: exactly four digits at the
head of the list (further characters are simply not consumed). -/
def matchYear4 : List Char → Option Nat
  | a :: b :: c :: d :: _ =>
    match digitVal? a, digitVal? b, digitVal? c, digitVal? d with
    | some w, some x, some y, some z => some (w * 1000 + x * 100 + y * 10 + z)
    | _, _, _, _ => none
  | _ => none

/-- Consume a literal `/` of the date regex. -/
def afterSlash : List Char → Option (List Char)
  | '/' :: r => some r
  | _ => none

/-- Match `\d{1,2}/\d{4}` (the day and year fields) at the head of the
list, with regex backtracking over the day field. -/
def matchDY (cs : List Char) : Option (Nat × Nat) :=
  (matchField cs).findSome? fun p =>
    (afterSlash p.2).bind fun r => (matchYear4 r).map fun yv => (p.1, yv)

/-- Match the full pattern `\d{1,2}/\d{1,2}/\d{4}` at the head of the list
(with backtracking over the one-or-two-digit fields), returning the three
numeric fields. -/
def matchMDYAt (cs : List Char) : Option (Nat × Nat × Nat) :=
  (matchField cs).findSome? fun p =>
    (afterSlash p.2).bind fun r => (matchDY r).map fun q => (p.1, q.1, q.2)

/-- Models `re.search(r'\d{1,2}/\d{1,2}/\d{4}', description)`: the leftmost
position at which the pattern matches, returning the numeric fields of the
match. -/
def findDate : List Char → Option (Nat × Nat × Nat)
  | [] => none
  | c :: t =>
    match matchMDYAt (c :: t) with
    | some r => some r
    | none => findDate t

/-- Gregorian leap-year test. -/
def isLeap (y : Int) : Bool :=
  (y % 4 == 0 && y % 100 != 0) || y % 400 == 0

/-- Number of days in a Gregorian month. -/
def daysInMonth (y : Int) (m : Nat) : Nat :=
  if m = 2 then (if isLeap y then 29 else 28)
  else if m = 4 || m = 6 || m = 9 || m = 11 then 30
  else 31

/-- Is `m/d/y` a valid month-first Gregorian date? -/
def validMDY (y : Int) (m d : Nat) : Bool :=
  1 ≤ m && m ≤ 12 && 1 ≤ d && d ≤ daysInMonth y m

/-- Models `pd.to_datetime` on a matched `M/D/YYYY` string: month-first
reading, falling back to a day-first reading when the first field exceeds 12
(dateutil-style inference); fails (Python raises, caught by the source) when
neither reading is a valid date. -/
def toDatetimeMDY (m d y : Nat) : Option PDate :=
  if validMDY (y : Int) m d then some ⟨(y : Int), m, d⟩
  else if 12 < m && validMDY (y : Int) d m then some ⟨(y : Int), d, m⟩
  else none

/-- The maturity bucket of `categorize_holding` (lines 36-38 and 46-48):
years-to-maturity is `days / 365.25` and the cutoffs are `≤ 2` then `≤ 10`. -/
def bucketOf (d : Int) : String :=
  if (d : ℚ) / 365.25 ≤ 2 then "Bonds - Short (0-2y)"
  else if (d : ℚ) / 365.25 ≤ 10 then "Bonds - Interm (3-10y)"
  else "Bonds - Long (10+y)"

/-- Tier 1 of the waterfall (lines 24-26): the first `EXACT_MATCH` rule whose
`Parameter` equals the symbol. -/
def exactTier (symbol : String) (rules : List CategoryRule) : Option String :=
  ((rules.filter fun r => r.ruleType == "EXACT_MATCH").find?
      fun r => symbol == r.parameter).map fun r => r.masterCategory

/-- Tier 2 of the waterfall (lines 28-30): the first `ENDS_WITH` rule whose
`Parameter` is a suffix of the symbol. -/
def endsTier (symbol : String) (rules : List CategoryRule) : Option String :=
  ((rules.filter fun r => r.ruleType == "ENDS_WITH").find?
      fun r => strEndsWith symbol r.parameter).map fun r => r.masterCategory

/-- The maturity date tier 3 works from (lines 32-49): the explicitly given
date when the `Maturity Date` cell is present and parses (`some none`, a cell
whose parse raises, falls through without trying the description); otherwise,
for a description containing `TREAS` or `CD`, the first embedded
`\d{1,2}/\d{1,2}/\d{4}` match that `pd.to_datetime` accepts. -/
def tier3Date (maturity : Option (Option PDate)) (descUpper : String) : Option PDate :=
  match maturity with
  | some p => p
  | none =>
    if containsSub "TREAS".toList descUpper.toList
        || containsSub "CD".toList descUpper.toList then
      (findDate descUpper.toList).bind fun t => toDatetimeMDY t.1 t.2.1 t.2.2
    else none

/-- Days to maturity used by tier 3: `(maturity_dt - datetime.now()).days`
with `now` the current calendar date at midnight. -/
def tier3Days (maturity : Option (Option PDate)) (descUpper : String) (now : PDate) :
    Option Int :=
  (tier3Date maturity descUpper).map fun md => civilDays md - civilDays now

/-- Tier 4 of the waterfall (lines 51-53): the first `CONTAINS_DESC` rule
whose uppercased `Parameter` occurs in the uppercased description. -/
def containsTier (descUpper : String) (rules : List CategoryRule) : Option String :=
  (rules.filter fun r => r.ruleType == "CONTAINS_DESC").findSome? fun r =>
    if containsSub (String.toUpper r.parameter).toList descUpper.toList then
      some r.masterCategory
    else none

/-- Fold decimal digits onto an accumulator, failing at the first non-digit
character; the basic numeric-string reader shared by the models of Python's
`int` and of `pd.to_numeric`. -/
def parseNatFrom (acc : Nat) : List Char → Option Nat
  | [] => some acc
  | c :: cs =>
    match digitVal? c with
    | some d => parseNatFrom (acc * 10 + d) cs
    | none => none

/-- A nonempty all-digit run read as a number (`int("")` raises). -/
def parseDigits? (ds : List Char) : Option Nat :=
  if ds.isEmpty then none else parseNatFrom 0 ds

/-- Strip leading and trailing spaces (the whitespace Python's `int`
tolerates around a literal). -/
def stripSpaces (cs : List Char) : List Char :=
  ((cs.dropWhile fun c => c == ' ').reverse.dropWhile fun c => c == ' ').reverse

/-- Models Python's `int(s)` on the strings the `LEN_ALPHA` parameters can
contain: optional surrounding spaces, an optional sign, then decimal digits
(`none` models the `ValueError` the source catches). -/
def pyInt? (s : String) : Option Int :=
  match stripSpaces s.toList with
  | '+' :: ds => (parseDigits? ds).map fun n => (n : Int)
  | '-' :: ds => (parseDigits? ds).map fun n => -(n : Int)
  | ds => (parseDigits? ds).map fun n => (n : Int)

/-- Models Python's `s.split(sep)` for a one-character separator. -/
def splitOnChar (sep : Char) : List Char → List (List Char)
  | [] => [[]]
  | c :: r =>
    match splitOnChar sep r with
    | [] => [[c]]
    | g :: gs => if c == sep then [] :: g :: gs else (c :: g) :: gs

/-- Models `min_len, max_len = map(int, rule['Parameter'].split('-'))`
(line 57): succeeds exactly when the split has two pieces and both parse as
integers; any failure is the `ValueError` the bare `except` swallows. -/
def parseLenRange? (param : String) : Option (Int × Int) :=
  match (splitOnChar '-' param.toList).map fun g => pyInt? (String.mk g) with
  | [some a, some b] => some (a, b)
  | _ => none

/-- Models Python's `s.isalpha()` on ASCII symbols: nonempty and consisting
of letters only. -/
def pyIsAlpha (s : String) : Bool :=
  !s.toList.isEmpty && s.toList.all fun c => c.isAlpha

/-- Tier 5 of the waterfall (lines 55-60): the first `LEN_ALPHA` rule whose
`min-max` parameter parses and whose length range contains the symbol's
length, for an alphabetic symbol; rules whose parameter fails to parse are
skipped (the bare `except: pass`). -/
def lenAlphaTier (symbol : String) (rules : List CategoryRule) : Option String :=
  (rules.filter fun r => r.ruleType == "LEN_ALPHA").findSome? fun r =>
    match parseLenRange? r.parameter with
    | some p =>
      if p.1 ≤ (symbol.length : Int) && (symbol.length : Int) ≤ p.2
          && pyIsAlpha symbol then
        some r.masterCategory
      else none
    | none => none

/-- Tiers 4-6 of the waterfall: description containment, then the
length/alphabetic heuristic, then the fallback `"Uncategorized"` (line 62). -/
def postMaturity (symbol descUpper : String) (rules : List CategoryRule) : String :=
  match containsTier descUpper rules with
  | some c => c
  | none =>
    match lenAlphaTier symbol rules with
    | some c => c
    | none => "Uncategorized"

/-- The full `categorize_holding(holding, rules)` waterfall of
`analyze_portfolio.py` (lines 15-62), with the wall clock passed in as the
calendar date `now`. -/
def categorize_holding (h : Holding) (rules : List CategoryRule) (now : PDate) : String :=
  let descUpper := String.toUpper h.description
  match exactTier h.symbol rules with
  | some c => c
  | none =>
    match endsTier h.symbol rules with
    | some c => c
    | none =>
      match tier3Days h.maturityDate descUpper now with
      | some d => bucketOf d
      | none => postMaturity h.symbol descUpper rules

/-- One row of the `Config_Targets` tab: `{Master Category, Target Percent,
Reporting Category}`. -/
structure TargetEntry where
  category : String
  targetPercent : ℚ
  reportingCategory : String
deriving DecidableEq

/-- One row of the optional `Config_DCA` tab after the numeric cleanup of
lines 83-91: `{Master Category, Time Horizon (Years), Monthly Contribution}`
with both numbers already coerced (unparseable cells become 0 there). -/
structure DCAEntry where
  category : String
  horizon : ℚ
  contribution : ℚ
deriving DecidableEq

/-- One row of the `Output_MasterSummary` tab before currency/percent
formatting (lines 138-145). -/
structure SummaryRow where
  category : String
  targetPercent : ℚ
  reportingCategory : String
  currentAmount : ℚ
  targetAmount : ℚ
  currentPercent : ℚ
  differenceAmt : ℚ
deriving DecidableEq

/-- One row of the `Output_GrowthVsStable` tab before formatting
(lines 147-152). -/
structure ReportRow where
  reportingCategory : String
  currentAmount : ℚ
  targetAmount : ℚ
  currentPercent : ℚ
  targetPercent : ℚ
deriving DecidableEq

/-- One row of the `Output_Projections` tab in monitor mode, before
formatting (lines 220-228). -/
structure ProjRow where
  category : String
  amountUnderTarget : ℚ
  horizon : ℚ
  contribution : ℚ
  requiredMonthly : ℚ
  projectedTotal : ℚ
  shortfallSurplus : ℚ
deriving DecidableEq

/-- The computed (pre-formatting) contents of the output tabs the claims
refer to: the sum warning printed at line 102, the master summary, the
reporting roll-up, and (in monitor mode) the DCA projection rows. -/
structure AnalysisOutput where
  sumWarningFired : Bool
  summary : List SummaryRow
  report : List ReportRow
  projections : Option (List ProjRow)
deriving DecidableEq

/-- Line 99: drop `Config_Targets` rows whose `Master Category` lowercases
to `"total"`. -/
def filteredTargets (ts : List TargetEntry) : List TargetEntry :=
  ts.filter fun t => t.category.toLower != "total"

/-- Models Python's `abs` on a rational. -/
def pyAbs (q : ℚ) : ℚ := if q < 0 then -q else q

/-- Lines 100-102: the target-percent sum warning condition
`abs(target_sum - 1.0) > SUM_TOLERANCE` with `SUM_TOLERANCE = 0.001`. -/
def sumWarning (ts : List TargetEntry) : Bool :=
  decide ((1 : ℚ)/1000 < pyAbs ((ts.map fun t => t.targetPercent).sum - 1))

/-- Line 116: every holding paired with its `Master Category`; the holding's
`Current Value` is carried along (already numeric, line 125's
`to_numeric(...).fillna(0)`). -/
def categorizedHoldings (holdings : List Holding) (rules : List CategoryRule)
    (now : PDate) : List (String × ℚ) :=
  holdings.map fun h => (categorize_holding h rules now, h.currentValue)

/-- Line 126: total portfolio value. -/
def totalValue (hs : List (String × ℚ)) : ℚ := (hs.map fun p => p.2).sum

/-- One group of line 127's `groupby('Master Category')['Current Value'].sum()`:
the summed `Current Value` of the holdings in category `c`. -/
def allocAmount (hs : List (String × ℚ)) (c : String) : ℚ :=
  ((hs.filter fun p => p.1 == c).map fun p => p.2).sum

/-- The distinct categories appearing among the categorized holdings (the
group keys of line 127; their order is irrelevant to every claim). -/
def allocCats (hs : List (String × ℚ)) : List String :=
  (hs.map fun p => p.1).dedup

/-- Lines 130-132: categories found in the data, minus `"Uncategorized"`,
that are missing from the configured targets; a nonempty result is the
fatal category mismatch. -/
def missingCategories (hs : List (String × ℚ)) (ts : List TargetEntry) : List String :=
  (allocCats hs).filter fun c =>
    c != "Uncategorized" && ts.all fun t => t.category != c

/-- Lines 138-145: the master summary, one row per (filtered) target row.
The left merge with the per-category allocation table followed by
`fillna(0)` gives each target row the summed `Current Value` of its
category's holdings (0 when the category has none). -/
def summaryRows (ts : List TargetEntry) (hs : List (String × ℚ)) : List SummaryRow :=
  let total := totalValue hs
  ts.map fun t =>
    let cur := allocAmount hs t.category
    let tgtAmt := if total > 0 then t.targetPercent * total else 0
    let curPct := if total > 0 then cur / total else 0
    ⟨t.category, t.targetPercent, t.reportingCategory, cur, tgtAmt, curPct, cur - tgtAmt⟩

/-- Lines 147-152: roll the summary up by `Reporting Category`, summing the
current and target amounts and recomputing the percentages with the same
zero-total guard. -/
def reportRows (ts : List TargetEntry) (hs : List (String × ℚ)) : List ReportRow :=
  let total := totalValue hs
  let srows := summaryRows ts hs
  ((srows.map fun s => s.reportingCategory).dedup).map fun rc =>
    let cur := ((srows.filter fun s => s.reportingCategory == rc).map
      fun s => s.currentAmount).sum
    let tgt := ((srows.filter fun s => s.reportingCategory == rc).map
      fun s => s.targetAmount).sum
    ⟨rc, cur, tgt, if total > 0 then cur / total else 0,
      if total > 0 then tgt / total else 0⟩

/-- Line 220: `pd.merge(summary_df, config_dca_df, on='Master Category',
how='left').fillna(0)` — every summary row paired with the horizon and
contribution of each matching DCA row, or with zeros when none matches. -/
def mergeDCA (srows : List SummaryRow) (dca : List DCAEntry) :
    List (SummaryRow × ℚ × ℚ) :=
  srows.flatMap fun s =>
    match dca.filter fun d => d.category == s.category with
    | [] => [(s, 0, 0)]
    | ds => ds.map fun d => (s, d.horizon, d.contribution)

/-- Lines 221-228 (monitor mode): keep the underweight merged rows
(`Difference $ < 0`) and compute the DCA projection columns. -/
def monitorProjRows (srows : List SummaryRow) (dca : List DCAEntry) : List ProjRow :=
  ((mergeDCA srows dca).filter fun p => p.1.differenceAmt < 0).map fun p =>
    let under := -p.1.differenceAmt
    let req := if p.2.1 > 0 then under / (p.2.1 * 12) else 0
    ⟨p.1.category, under, p.2.1, p.2.2, req, p.2.2 * p.2.1 * 12, p.2.2 - req⟩

/-- The computation of `analyze_portfolio` (lines 99-152 and 218-228) on
already-ingested data, up to the output tabs the claims refer to: `none`
models the early `return` of the fatal category mismatch (lines 133-136),
under which no output file is written; `dca = some entries` is monitor mode
(a `Config_DCA` tab exists), `dca = none` is discover mode. -/
def analyze_portfolio (holdings : List Holding) (rules : List CategoryRule)
    (targets : List TargetEntry) (dca : Option (List DCAEntry)) (now : PDate) :
    Option AnalysisOutput :=
  let ts := filteredTargets targets
  let warn := sumWarning ts
  let hs := categorizedHoldings holdings rules now
  if missingCategories hs ts ≠ [] then none
  else
    let srows := summaryRows ts hs
    some ⟨warn, srows, reportRows ts hs, dca.map fun d => monitorProjRows srows d⟩

/-- The character written for a decimal digit value (the value is taken mod
10, so the function is total). -/
def digitChar (n : Nat) : Char := Char.ofNat (48 + n % 10)

/-- Decimal digit characters of `n`, most significant first (`[]` for 0);
`fuel`-structured so that the kernel can evaluate it; any `fuel ≥ n`
gives the digits of `n`. -/
def natDigitsAux : Nat → Nat → List Char
  | _, 0 => []
  | 0, _ + 1 => []
  | fuel + 1, n + 1 =>
    natDigitsAux fuel ((n + 1) / 10) ++ [digitChar ((n + 1) % 10)]

/-- Decimal digit characters of `n`, most significant first, nonempty
(`"0"` for 0): the integer part rendering of Python's `'{:,.2f}'.format`. -/
def renderNat (n : Nat) : List Char :=
  if n = 0 then ['0'] else natDigitsAux n n

/-- Insert a `,` after every third character of a reversed digit list (the
thousands grouping of the `,` format option, working from the right). -/
def group3Rev : List Char → List Char
  | d1 :: d2 :: d3 :: d4 :: rest => d1 :: d2 :: d3 :: ',' :: group3Rev (d4 :: rest)
  | l => l

/-- Thousands-grouping of a digit list (most significant first). -/
def commaGroup (ds : List Char) : List Char := (group3Rev ds.reverse).reverse

/-- Exactly two digit characters for a value below 100 (the cents field). -/
def pad2 (n : Nat) : List Char := [digitChar (n / 10), digitChar (n % 10)]

/-- Models the writer's currency rule `'${:,.2f}'.format(v)` (line 174) for
the non-negative amounts the claims quantify over: the amount in cents
(rounding half-up stands in for the float formatting's rounding, and is
exact whenever `v` has at most two decimal places), rendered as
`$`, the comma-grouped integer part, `.`, and two cent digits. -/
def formatCurrency (q : ℚ) : String :=
  let cents := (⌊q * 100 + 1/2⌋).toNat
  String.mk ('$' :: commaGroup (renderNat (cents / 100)) ++ '.' :: pad2 (cents % 100))

/-- The companion cleaner's `replace({'\$': '', ',': ''}, regex=True)`
(`format_fidelity.py` line 39): every `$` and `,` character is removed. -/
def stripCurrency (s : String) : String :=
  String.mk (s.toList.filter fun c => c != '$' && c != ',')

/-- Split a character list at the first `.`, keeping the remainder (so a
second dot stays in the fractional part and fails the digit parse, as it
would fail Python's float parsing). -/
def splitAtDot : List Char → List Char × Option (List Char)
  | [] => ([], none)
  | c :: r =>
    if c == '.' then ([], some r)
    else
      let q := splitAtDot r
      (c :: q.1, q.2)

/-- Models `pd.to_numeric` (`format_fidelity.py` line 40) on the plain
unsigned decimal strings the cleaner produces from currency cells: an
integer part, optionally a dot and a fractional part, at least one digit in
all; `none` models the coercion to NaN of an unparseable cell. -/
def toNumeric (s : String) : Option ℚ :=
  let q := splitAtDot s.toList
  match q.2 with
  | none =>
    if q.1.isEmpty then none
    else (parseNatFrom 0 q.1).map fun n => (n : ℚ)
  | some f =>
    if q.1.isEmpty && f.isEmpty then none
    else
      (parseNatFrom 0 q.1).bind fun n =>
        (parseNatFrom 0 f).map fun m => (n : ℚ) + (m : ℚ) / 10 ^ f.length

/-- C1: for every holding whose `Symbol` equals the `Parameter` of some
`EXACT_MATCH` rule in the rule set, `categorize_holding` returns the Master
Category of the first such matching rule — regardless of any other rules
(the rule list is fully universally quantified, so `ENDS_WITH`, maturity
bucketing, `CONTAINS_DESC` and `LEN_ALPHA` rules that would also match
cannot alter the result). -/
theorem exact_match_tier_decides (h : Holding) (rules : List CategoryRule) (now : PDate)
    (hex : ∃ r ∈ rules, r.ruleType = "EXACT_MATCH" ∧ h.symbol = r.parameter) :
    ∃ r, (rules.filter fun x => x.ruleType == "EXACT_MATCH").find?
        (fun x => h.symbol == x.parameter) = some r ∧
      r ∈ rules ∧ r.ruleType = "EXACT_MATCH" ∧ h.symbol = r.parameter ∧
      categorize_holding h rules now = r.masterCategory := by
  obtain ⟨r, hr, ht, hs⟩ := hex
  have hsome : ((rules.filter fun x => x.ruleType == "EXACT_MATCH").find?
      fun x => h.symbol == x.parameter).isSome := by
    rw [List.find?_isSome]
    exact ⟨r, List.mem_filter.mpr ⟨hr, by simp [ht]⟩, by simp [hs]⟩
  obtain ⟨r', hfind⟩ := Option.isSome_iff_exists.mp hsome
  have hpred := List.find?_some hfind
  have hmem := List.mem_of_find?_eq_some hfind
  refine ⟨r', hfind, (List.mem_filter.mp hmem).1, ?_, ?_, ?_⟩
  · simpa using (List.mem_filter.mp hmem).2
  · simpa using hpred
  · simp [categorize_holding, exactTier, hfind]

/-- Witness for C1: a symbol matching both an `ENDS_WITH` rule and an
`EXACT_MATCH` rule (listed later!) gets the exact rule's category. -/
theorem exact_match_tier_decides_witness :
    (∃ r ∈ [(⟨"ENDS_WITH", "L", "SuffixCat"⟩ : CategoryRule),
        ⟨"EXACT_MATCH", "AAPL", "ExactCat"⟩],
      r.ruleType = "EXACT_MATCH" ∧ "AAPL" = r.parameter) ∧
    ∃ r, ([(⟨"ENDS_WITH", "L", "SuffixCat"⟩ : CategoryRule),
        ⟨"EXACT_MATCH", "AAPL", "ExactCat"⟩].filter
          fun x => x.ruleType == "EXACT_MATCH").find?
        (fun x => "AAPL" == x.parameter) = some r ∧
      r ∈ [(⟨"ENDS_WITH", "L", "SuffixCat"⟩ : CategoryRule),
        ⟨"EXACT_MATCH", "AAPL", "ExactCat"⟩] ∧
      r.ruleType = "EXACT_MATCH" ∧ "AAPL" = r.parameter ∧
      categorize_holding ⟨"AAPL", "APPLE INC", none, 100⟩
        [⟨"ENDS_WITH", "L", "SuffixCat"⟩, ⟨"EXACT_MATCH", "AAPL", "ExactCat"⟩]
        ⟨2025, 10, 12⟩ = r.masterCategory :=
  ⟨⟨⟨"EXACT_MATCH", "AAPL", "ExactCat"⟩, by simp, rfl, rfl⟩,
    exact_match_tier_decides ⟨"AAPL", "APPLE INC", none, 100⟩ _ ⟨2025, 10, 12⟩
      ⟨⟨"EXACT_MATCH", "AAPL", "ExactCat"⟩, by simp, rfl, rfl⟩⟩

/-- C2: a holding that reaches the maturity tier with a parseable maturity
date `d` days out (explicit, or extracted from a TREAS/CD description —
both paths are `tier3Days`) is bucketed by `d / 365.25` years: at most 2
years is Short, at most 10 is Intermediate, and otherwise Long. -/
theorem maturity_bucketing (h : Holding) (rules : List CategoryRule) (now : PDate) (d : Int)
    (h1 : exactTier h.symbol rules = none)
    (h2 : endsTier h.symbol rules = none)
    (h3 : tier3Days h.maturityDate (String.toUpper h.description) now = some d) :
    categorize_holding h rules now = bucketOf d ∧
    ((d : ℚ) / 365.25 ≤ 2 → bucketOf d = "Bonds - Short (0-2y)") ∧
    (¬ (d : ℚ) / 365.25 ≤ 2 → (d : ℚ) / 365.25 ≤ 10 →
      bucketOf d = "Bonds - Interm (3-10y)") ∧
    (¬ (d : ℚ) / 365.25 ≤ 10 → bucketOf d = "Bonds - Long (10+y)") := by
  refine ⟨by simp [categorize_holding, h1, h2, h3], ?_, ?_, ?_⟩
  · intro hle; simp [bucketOf, hle]
  · intro hgt hle; simp [bucketOf, hgt, hle]
  · intro hgt
    have h2' : ¬ (d : ℚ) / 365.25 ≤ 2 := fun hc => hgt (le_trans hc (by norm_num))
    simp [bucketOf, hgt, h2']

/-- Witness for C2, at dates seen from 2025-01-01: maturity 18 months out
(546 days) is Short, 60 months out (1826 days) is Intermediate, 180 months
out (5478 days) is Long. -/
theorem maturity_bucketing_witness :
    (tier3Days (some (some ⟨2026, 7, 1⟩)) (String.toUpper "") ⟨2025, 1, 1⟩ = some 546 ∧
      tier3Days (some (some ⟨2030, 1, 1⟩)) (String.toUpper "") ⟨2025, 1, 1⟩ = some 1826 ∧
      tier3Days (some (some ⟨2040, 1, 1⟩)) (String.toUpper "") ⟨2025, 1, 1⟩ = some 5478) ∧
    categorize_holding ⟨"M18", "", some (some ⟨2026, 7, 1⟩), 0⟩ [] ⟨2025, 1, 1⟩ =
      "Bonds - Short (0-2y)" ∧
    categorize_holding ⟨"M60", "", some (some ⟨2030, 1, 1⟩), 0⟩ [] ⟨2025, 1, 1⟩ =
      "Bonds - Interm (3-10y)" ∧
    categorize_holding ⟨"M180", "", some (some ⟨2040, 1, 1⟩), 0⟩ [] ⟨2025, 1, 1⟩ =
      "Bonds - Long (10+y)" := by
  refine ⟨⟨rfl, rfl, rfl⟩, ?_, ?_, ?_⟩
  · exact ((maturity_bucketing ⟨"M18", "", some (some ⟨2026, 7, 1⟩), 0⟩ [] ⟨2025, 1, 1⟩
      546 rfl rfl rfl).1).trans
      (((maturity_bucketing ⟨"M18", "", some (some ⟨2026, 7, 1⟩), 0⟩ [] ⟨2025, 1, 1⟩
      546 rfl rfl rfl).2.1) (by norm_num))
  · exact ((maturity_bucketing ⟨"M60", "", some (some ⟨2030, 1, 1⟩), 0⟩ [] ⟨2025, 1, 1⟩
      1826 rfl rfl rfl).1).trans
      (((maturity_bucketing ⟨"M60", "", some (some ⟨2030, 1, 1⟩), 0⟩ [] ⟨2025, 1, 1⟩
      1826 rfl rfl rfl).2.2.1) (by norm_num) (by norm_num))
  · exact ((maturity_bucketing ⟨"M180", "", some (some ⟨2040, 1, 1⟩), 0⟩ [] ⟨2025, 1, 1⟩
      5478 rfl rfl rfl).1).trans
      (((maturity_bucketing ⟨"M180", "", some (some ⟨2040, 1, 1⟩), 0⟩ [] ⟨2025, 1, 1⟩
      5478 rfl rfl rfl).2.2.2) (by norm_num))

/-- C3: parsing failures are swallowed and evaluation falls through — with
no symbol-tier match, an explicit maturity cell whose parse raises (tier 3
failure), every `LEN_ALPHA` parameter unparseable (tier 5 failures) and no
description match, the function still returns, with the fallback
`"Uncategorized"`.  (That nothing raises is the totality of
`categorize_holding` itself.) -/
theorem parse_failures_fall_through (h : Holding) (rules : List CategoryRule) (now : PDate)
    (h1 : exactTier h.symbol rules = none)
    (h2 : endsTier h.symbol rules = none)
    (h3 : h.maturityDate = some none)
    (h4 : containsTier (String.toUpper h.description) rules = none)
    (h5 : ∀ r ∈ rules, r.ruleType = "LEN_ALPHA" → parseLenRange? r.parameter = none) :
    categorize_holding h rules now = "Uncategorized" := by
  have hlen : lenAlphaTier h.symbol rules = none := by
    rw [lenAlphaTier, List.findSome?_eq_none_iff]
    intro r hr
    have := h5 r (List.mem_filter.mp hr).1 (by simpa using (List.mem_filter.mp hr).2)
    simp [this]
  simp [categorize_holding, h1, h2, tier3Days, tier3Date, h3, postMaturity, h4, hlen]

/-- Witness for C3: an unparseable maturity cell and a malformed
`LEN_ALPHA` parameter are both skipped silently, ending at the fallback. -/
theorem parse_failures_fall_through_witness :
    (parseLenRange? "one-five" = none ∧
      containsTier (String.toUpper "mystery bond 13/45/2nnn")
        [⟨"LEN_ALPHA", "one-five", "Stocks"⟩] = none) ∧
    categorize_holding ⟨"QQQQ", "mystery bond 13/45/2nnn", some none, 50⟩
      [⟨"LEN_ALPHA", "one-five", "Stocks"⟩] ⟨2025, 10, 12⟩ = "Uncategorized" :=
  ⟨⟨rfl, by with_unfolding_all rfl⟩,
    parse_failures_fall_through ⟨"QQQQ", "mystery bond 13/45/2nnn", some none, 50⟩
      [⟨"LEN_ALPHA", "one-five", "Stocks"⟩] ⟨2025, 10, 12⟩ rfl rfl rfl
      (by with_unfolding_all rfl)
      (by intro r hr hty; simp at hr; subst hr; rfl)⟩

/-- C9: when the explicit `Maturity Date` cell is present but its parse
fails, the description-based date extraction is never attempted — even
when the (TREAS/CD) description contains a valid embedded date (hypothesis
`h4`, unused by the proof precisely because the code never looks) — and
evaluation proceeds directly to the `CONTAINS_DESC` tier
(`postMaturity`). -/
theorem explicit_parse_failure_skips_description (h : Holding) (rules : List CategoryRule)
    (now : PDate)
    (h1 : exactTier h.symbol rules = none)
    (h2 : endsTier h.symbol rules = none)
    (h3 : h.maturityDate = some none)
    (h4 : ∃ t md, findDate (String.toUpper h.description).toList = some t ∧
        toDatetimeMDY t.1 t.2.1 t.2.2 = some md) :
    categorize_holding h rules now =
      postMaturity h.symbol (String.toUpper h.description) rules := by
  simp [categorize_holding, h1, h2, tier3Days, tier3Date, h3]

/-- Witness for C9: a TREAS description with the valid embedded date
7/1/2026 is ignored because the explicit cell failed to parse; the holding
lands in the `CONTAINS_DESC` tier instead of a maturity bucket. -/
theorem explicit_parse_failure_skips_description_witness :
    (findDate (String.toUpper "US TREAS NOTE DUE 7/1/2026").toList = some (7, 1, 2026) ∧
      toDatetimeMDY 7 1 2026 = some ⟨2026, 7, 1⟩ ∧
      containsSub "TREAS".toList (String.toUpper "US TREAS NOTE DUE 7/1/2026").toList = true) ∧
    categorize_holding ⟨"X1", "US TREAS NOTE DUE 7/1/2026", some none, 0⟩
      [⟨"CONTAINS_DESC", "treas", "TreasCat"⟩] ⟨2025, 1, 1⟩ =
      postMaturity "X1" (String.toUpper "US TREAS NOTE DUE 7/1/2026")
        [⟨"CONTAINS_DESC", "treas", "TreasCat"⟩] ∧
    categorize_holding ⟨"X1", "US TREAS NOTE DUE 7/1/2026", some none, 0⟩
      [⟨"CONTAINS_DESC", "treas", "TreasCat"⟩] ⟨2025, 1, 1⟩ = "TreasCat" :=
  ⟨⟨by with_unfolding_all rfl, by with_unfolding_all rfl, by with_unfolding_all rfl⟩,
    explicit_parse_failure_skips_description
      ⟨"X1", "US TREAS NOTE DUE 7/1/2026", some none, 0⟩
      [⟨"CONTAINS_DESC", "treas", "TreasCat"⟩] ⟨2025, 1, 1⟩ rfl rfl rfl
      ⟨(7, 1, 2026), ⟨2026, 7, 1⟩, by with_unfolding_all rfl, by with_unfolding_all rfl⟩,
    by with_unfolding_all rfl⟩
/-- C4: if some holding's Master Category is not `"Uncategorized"` and is
absent from the target entries, the run halts (`analyze_portfolio` is
`none`): no summary, reporting, projection or rebalancing output is
produced for that run. -/
theorem missing_category_halts (holdings : List Holding) (rules : List CategoryRule)
    (targets : List TargetEntry) (dca : Option (List DCAEntry)) (now : PDate)
    (h : Holding) (hmem : h ∈ holdings)
    (hne : categorize_holding h rules now ≠ "Uncategorized")
    (habs : ∀ t ∈ targets, t.category ≠ categorize_holding h rules now) :
    analyze_portfolio holdings rules targets dca now = none := by
  have hc : categorize_holding h rules now ∈
      allocCats (categorizedHoldings holdings rules now) := by
    simp only [allocCats, categorizedHoldings, List.mem_dedup, List.map_map, List.mem_map]
    exact ⟨h, hmem, rfl⟩
  have hfilt : categorize_holding h rules now ∈
      missingCategories (categorizedHoldings holdings rules now) (filteredTargets targets) := by
    refine List.mem_filter.mpr ⟨hc, ?_⟩
    simp only [Bool.and_eq_true, bne_iff_ne, ne_eq, List.all_eq_true]
    exact ⟨hne, fun t ht => habs t (List.mem_filter.mp ht).1⟩
  have hnil : missingCategories (categorizedHoldings holdings rules now)
      (filteredTargets targets) ≠ [] := List.ne_nil_of_mem hfilt
  simp only [analyze_portfolio, ne_eq]
  rw [if_pos hnil]

/-- Witness for C4: a holding categorized `"Stocks"` with only a
`"Bonds"` target aborts the run. -/
theorem missing_category_halts_witness :
    ((⟨"AAPL", "x", none, 100⟩ : Holding) ∈ [(⟨"AAPL", "x", none, 100⟩ : Holding)]) ∧
    categorize_holding ⟨"AAPL", "x", none, 100⟩ [⟨"LEN_ALPHA", "1-5", "Stocks"⟩]
      ⟨2025, 10, 12⟩ = "Stocks" ∧
    analyze_portfolio [⟨"AAPL", "x", none, 100⟩] [⟨"LEN_ALPHA", "1-5", "Stocks"⟩]
      [⟨"Bonds", 1, "Stable"⟩] none ⟨2025, 10, 12⟩ = none :=
  ⟨by simp, by with_unfolding_all rfl,
    missing_category_halts [⟨"AAPL", "x", none, 100⟩] [⟨"LEN_ALPHA", "1-5", "Stocks"⟩]
      [⟨"Bonds", 1, "Stable"⟩] none ⟨2025, 10, 12⟩ ⟨"AAPL", "x", none, 100⟩
      (by simp)
      (by intro hcon; exact absurd (hcon ▸ (by with_unfolding_all rfl :
        categorize_holding ⟨"AAPL", "x", none, 100⟩ [⟨"LEN_ALPHA", "1-5", "Stocks"⟩]
          ⟨2025, 10, 12⟩ = "Stocks")) (by decide))
      (by
        intro t ht
        simp only [List.mem_singleton] at ht
        subst ht
        intro hcon
        have : categorize_holding ⟨"AAPL", "x", none, 100⟩ [⟨"LEN_ALPHA", "1-5", "Stocks"⟩]
            ⟨2025, 10, 12⟩ = "Stocks" := by with_unfolding_all rfl
        rw [this] at hcon
        exact absurd hcon (by decide))⟩

/-- C5: in monitor mode (a `Config_DCA` tab present), every row of the
projection output (which are exactly the underweight categories) has
required monthly investment `amount under target / (horizon * 12)` when the
horizon is positive and `0` otherwise, and monthly shortfall/surplus equal
to the configured monthly contribution minus the required monthly
investment. -/
theorem monitor_mode_projection (holdings : List Holding) (rules : List CategoryRule)
    (targets : List TargetEntry) (dca : List DCAEntry) (now : PDate)
    (out : AnalysisOutput) (prows : List ProjRow)
    (ha : analyze_portfolio holdings rules targets (some dca) now = some out)
    (hb : out.projections = some prows)
    (r : ProjRow) (hr : r ∈ prows) :
    r.requiredMonthly =
      (if r.horizon > 0 then r.amountUnderTarget / (r.horizon * 12) else 0) ∧
    r.shortfallSurplus = r.contribution - r.requiredMonthly := by
  simp only [analyze_portfolio] at ha
  split at ha
  · exact absurd ha (by simp)
  · injection ha with ha'
    subst ha'
    simp only [Option.map_some] at hb
    injection hb with hb'
    subst hb'
    obtain ⟨p, hp, hre⟩ := List.mem_map.mp hr
    subst hre
    exact ⟨rfl, rfl⟩

/-- Witness for C5: a concrete monitor-mode run with one underweight
category (`$50` under target, 2-year horizon, `$10`/month contributed):
required monthly investment `50/24 = 25/12`, shortfall `10 - 25/12`. -/
theorem monitor_mode_projection_witness :
    analyze_portfolio [⟨"A", "x", none, 100⟩] [] [⟨"B", 1/2, "R"⟩]
      (some [⟨"B", 2, 10⟩]) ⟨2025, 1, 1⟩ =
      some ⟨true, [⟨"B", 1/2, "R", 0, 50, 0, -50⟩], [⟨"R", 0, 50, 0, 1/2⟩],
        some [⟨"B", 50, 2, 10, 25/12, 240, 95/12⟩]⟩ ∧
    (⟨"B", 50, 2, 10, 25/12, 240, 95/12⟩ : ProjRow).requiredMonthly =
      (if (⟨"B", 50, 2, 10, 25/12, 240, 95/12⟩ : ProjRow).horizon > 0 then
        (⟨"B", 50, 2, 10, 25/12, 240, 95/12⟩ : ProjRow).amountUnderTarget /
          ((⟨"B", 50, 2, 10, 25/12, 240, 95/12⟩ : ProjRow).horizon * 12) else 0) ∧
    (⟨"B", 50, 2, 10, 25/12, 240, 95/12⟩ : ProjRow).shortfallSurplus =
      (⟨"B", 50, 2, 10, 25/12, 240, 95/12⟩ : ProjRow).contribution -
        (⟨"B", 50, 2, 10, 25/12, 240, 95/12⟩ : ProjRow).requiredMonthly :=
  ⟨by with_unfolding_all rfl,
    (monitor_mode_projection [⟨"A", "x", none, 100⟩] [] [⟨"B", 1/2, "R"⟩]
      [⟨"B", 2, 10⟩] ⟨2025, 1, 1⟩
      ⟨true, [⟨"B", 1/2, "R", 0, 50, 0, -50⟩], [⟨"R", 0, 50, 0, 1/2⟩],
        some [⟨"B", 50, 2, 10, 25/12, 240, 95/12⟩]⟩
      [⟨"B", 50, 2, 10, 25/12, 240, 95/12⟩]
      (by with_unfolding_all rfl) rfl
      ⟨"B", 50, 2, 10, 25/12, 240, 95/12⟩ (by simp)).1,
    (monitor_mode_projection [⟨"A", "x", none, 100⟩] [] [⟨"B", 1/2, "R"⟩]
      [⟨"B", 2, 10⟩] ⟨2025, 1, 1⟩
      ⟨true, [⟨"B", 1/2, "R", 0, 50, 0, -50⟩], [⟨"R", 0, 50, 0, 1/2⟩],
        some [⟨"B", 50, 2, 10, 25/12, 240, 95/12⟩]⟩
      [⟨"B", 50, 2, 10, 25/12, 240, 95/12⟩]
      (by with_unfolding_all rfl) rfl
      ⟨"B", 50, 2, 10, 25/12, 240, 95/12⟩ (by simp)).2⟩

/-- C6: with total portfolio value 0, every summary row's Target Amount
and Current Percent and every reporting row's Current and Target Percent
are 0.  (No division error can arise: `summaryRows` and `reportRows` are
total functions and the zero-total branch never divides.) -/
theorem zero_total_zero_percents (ts : List TargetEntry) (hs : List (String × ℚ))
    (h0 : totalValue hs = 0) :
    (∀ r ∈ summaryRows ts hs, r.targetAmount = 0 ∧ r.currentPercent = 0) ∧
    (∀ r ∈ reportRows ts hs, r.currentPercent = 0 ∧ r.targetPercent = 0) := by
  constructor
  · intro r hr
    simp only [summaryRows] at hr
    obtain ⟨t, ht, hre⟩ := List.mem_map.mp hr
    subst hre
    simp [h0]
  · intro r hr
    simp only [reportRows] at hr
    obtain ⟨rc, hrc, hre⟩ := List.mem_map.mp hr
    subst hre
    simp [h0]

/-- Witness for C6: a single zero-value holding. -/
theorem zero_total_zero_percents_witness :
    totalValue [("A", (0 : ℚ))] = 0 ∧
    (∀ r ∈ summaryRows [⟨"A", 1, "G"⟩] [("A", (0 : ℚ))],
      r.targetAmount = 0 ∧ r.currentPercent = 0) ∧
    (∀ r ∈ reportRows [⟨"A", 1, "G"⟩] [("A", (0 : ℚ))],
      r.currentPercent = 0 ∧ r.targetPercent = 0) :=
  ⟨by with_unfolding_all rfl,
    (zero_total_zero_percents [⟨"A", 1, "G"⟩] [("A", (0 : ℚ))]
      (by with_unfolding_all rfl)).1,
    (zero_total_zero_percents [⟨"A", 1, "G"⟩] [("A", (0 : ℚ))]
      (by with_unfolding_all rfl)).2⟩

/-- The Python `abs` model agrees with the absolute value. -/
theorem pyAbs_eq_abs (q : ℚ) : pyAbs q = |q| := by
  rw [pyAbs]
  split_ifs with h
  · exact (abs_of_neg h).symm
  · exact (abs_of_nonneg (not_lt.mp h)).symm

/-- C7: the sum-mismatch warning fires iff the target percentages sum to
a value outside `1.0 ± 0.001`; in particular targets `{A: 0.6, B: 0.4}`
produce no warning and `{A: 0.5, B: 0.4}` produce one. -/
theorem sum_warning_iff :
    (∀ ts : List TargetEntry,
      sumWarning ts = true ↔ ¬ |(ts.map fun t => t.targetPercent).sum - 1| ≤ 1/1000) ∧
    sumWarning [⟨"A", 0.6, "G"⟩, ⟨"B", 0.4, "G"⟩] = false ∧
    sumWarning [⟨"A", 0.5, "G"⟩, ⟨"B", 0.4, "G"⟩] = true := by
  refine ⟨?_, by with_unfolding_all rfl, by with_unfolding_all rfl⟩
  intro ts
  rw [sumWarning, decide_eq_true_iff, pyAbs_eq_abs, not_le]
/-- Splitting a value sum over a disjunction of disjoint predicates. -/
theorem sum_filter_or_disjoint (hs : List (String × ℚ)) (p q : String × ℚ → Bool)
    (hdisj : ∀ x, ¬(p x = true ∧ q x = true)) :
    ((hs.filter fun x => p x || q x).map fun x => x.2).sum =
      ((hs.filter p).map fun x => x.2).sum + ((hs.filter q).map fun x => x.2).sum := by
  induction hs with
  | nil => simp
  | cons a t ih =>
    by_cases hp : p a = true
    · have hq : q a = false := by
        cases hqa : q a
        · rfl
        · exact absurd ⟨hp, hqa⟩ (hdisj a)
      simp only [List.filter_cons, hp, hq, Bool.true_or, if_true, Bool.false_eq_true,
        if_false, List.map_cons, List.sum_cons, ih]
      ring
    · have hp' : p a = false := Bool.eq_false_iff.mpr hp
      by_cases hq : q a = true
      · simp only [List.filter_cons, hp', hq, Bool.false_or, if_true, Bool.false_eq_true,
          if_false, List.map_cons, List.sum_cons, ih]
        ring
      · have hq' : q a = false := Bool.eq_false_iff.mpr hq
        simp only [List.filter_cons, hp', hq', Bool.false_or, Bool.false_eq_true,
          if_false, ih]

/-- Summing the per-category allocations over a duplicate-free category
list equals summing the values of the holdings falling in those
categories. -/
theorem sum_alloc_eq_sum_filter (hs : List (String × ℚ)) (cs : List String)
    (hnd : cs.Nodup) :
    (cs.map fun c => allocAmount hs c).sum =
      ((hs.filter fun x => cs.contains x.1).map fun x => x.2).sum := by
  induction cs with
  | nil => simp [allocAmount]
  | cons c cs ih =>
    have hnd' : cs.Nodup := hnd.of_cons
    have hcn : c ∉ cs := (List.nodup_cons.mp hnd).1
    have hcontains : ∀ x : String × ℚ,
        ((c :: cs).contains x.1) = ((x.1 == c) || cs.contains x.1) := fun x =>
      List.contains_cons
    have hsplit := sum_filter_or_disjoint hs (fun x => x.1 == c)
      (fun x => cs.contains x.1) ?_
    · calc ((c :: cs).map fun d => allocAmount hs d).sum
          = allocAmount hs c + (cs.map fun d => allocAmount hs d).sum := by
            simp
        _ = ((hs.filter fun x => x.1 == c).map fun x => x.2).sum +
            ((hs.filter fun x => cs.contains x.1).map fun x => x.2).sum := by
            rw [ih hnd', allocAmount]
        _ = ((hs.filter fun x => (x.1 == c) || cs.contains x.1).map fun x => x.2).sum := by
            rw [hsplit]
        _ = ((hs.filter fun x => (c :: cs).contains x.1).map fun x => x.2).sum := by
            simp only [hcontains]
    · intro x hx
      obtain ⟨h1, h2⟩ := hx
      exact hcn (by simpa using (beq_iff_eq.mp h1) ▸ List.elem_iff.mp h2)

/-- C10 (amended): total portfolio value sums the Current Value of all
holdings, including the `"Uncategorized"` ones, while the summary covers
only the target categories.  Provided the (total-row-filtered) target
entries carry pairwise-distinct Master Categories none of which is
`"Uncategorized"`, every completed run with positive uncategorized value
has summary Current Amounts summing to total value minus the uncategorized
value, and Current Percents summing to strictly less than 1. -/
theorem uncategorized_value_excluded (holdings : List Holding) (rules : List CategoryRule)
    (targets : List TargetEntry) (dca : Option (List DCAEntry)) (now : PDate)
    (out : AnalysisOutput)
    (ha : analyze_portfolio holdings rules targets dca now = some out)
    (hnd : ((filteredTargets targets).map fun t => t.category).Nodup)
    (hnu : "Uncategorized" ∉ (filteredTargets targets).map fun t => t.category)
    (hpos : 0 < allocAmount (categorizedHoldings holdings rules now) "Uncategorized") :
    totalValue (categorizedHoldings holdings rules now) =
      (holdings.map fun h => h.currentValue).sum ∧
    (out.summary.map fun r => r.currentAmount).sum =
      totalValue (categorizedHoldings holdings rules now) -
        allocAmount (categorizedHoldings holdings rules now) "Uncategorized" ∧
    (out.summary.map fun r => r.currentPercent).sum < 1 := by
  have hmiss : missingCategories (categorizedHoldings holdings rules now)
      (filteredTargets targets) = [] := by
    by_contra hm
    simp only [analyze_portfolio] at ha
    rw [if_pos hm] at ha
    exact absurd ha (by simp)
  have hout : out.summary = summaryRows (filteredTargets targets)
      (categorizedHoldings holdings rules now) := by
    simp only [analyze_portfolio] at ha
    rw [if_neg (by simp [hmiss])] at ha
    injection ha with h'
    rw [← h']
  have htot : totalValue (categorizedHoldings holdings rules now) =
      (holdings.map fun h => h.currentValue).sum := by
    simp [totalValue, categorizedHoldings, List.map_map, Function.comp_def]
  have hcov : ∀ x ∈ categorizedHoldings holdings rules now,
      (((filteredTargets targets).map fun t => t.category).contains x.1
        || (x.1 == "Uncategorized")) = true := by
    intro x hx
    have hmem : x.1 ∈ allocCats (categorizedHoldings holdings rules now) := by
      rw [allocCats, List.mem_dedup]
      exact List.mem_map.mpr ⟨x, hx, rfl⟩
    have hnp := List.filter_eq_nil_iff.mp hmiss x.1 hmem
    by_cases hu : x.1 = "Uncategorized"
    · simp [hu]
    · have hex : ∃ t ∈ filteredTargets targets, t.category = x.1 := by
        by_contra hno
        push_neg at hno
        apply hnp
        simp only [Bool.and_eq_true, bne_iff_ne, ne_eq, List.all_eq_true]
        exact ⟨hu, fun t ht => hno t ht⟩
      obtain ⟨t, ht, htc⟩ := hex
      have hin : x.1 ∈ (filteredTargets targets).map fun t => t.category :=
        List.mem_map.mpr ⟨t, ht, htc⟩
      have hc2 : ((filteredTargets targets).map fun t => t.category).contains x.1 = true :=
        List.elem_iff.mpr hin
      rw [hc2, Bool.true_or]
  have hall : (categorizedHoldings holdings rules now).filter
      (fun x => ((filteredTargets targets).map fun t => t.category).contains x.1
        || (x.1 == "Uncategorized")) = categorizedHoldings holdings rules now :=
    List.filter_eq_self.mpr hcov
  have hsplit := sum_filter_or_disjoint (categorizedHoldings holdings rules now)
    (fun x => ((filteredTargets targets).map fun t => t.category).contains x.1)
    (fun x => x.1 == "Uncategorized")
    (by
      intro x hx
      obtain ⟨h1, h2⟩ := hx
      exact hnu ((beq_iff_eq.mp h2) ▸ List.elem_iff.mp h1))
  have htotal : totalValue (categorizedHoldings holdings rules now) =
      (((categorizedHoldings holdings rules now).filter
        (fun x => ((filteredTargets targets).map fun t => t.category).contains x.1)).map
          fun x => x.2).sum +
      allocAmount (categorizedHoldings holdings rules now) "Uncategorized" := by
    have h0 : totalValue (categorizedHoldings holdings rules now) =
        (((categorizedHoldings holdings rules now).filter
          (fun x => ((filteredTargets targets).map fun t => t.category).contains x.1
            || (x.1 == "Uncategorized"))).map fun x => x.2).sum := by
      rw [hall]
      rfl
    rw [h0, hsplit]
    rfl
  have hs1 := sum_alloc_eq_sum_filter (categorizedHoldings holdings rules now)
    ((filteredTargets targets).map fun t => t.category) hnd
  rw [List.map_map] at hs1
  have hkey : ((filteredTargets targets).map fun t =>
      allocAmount (categorizedHoldings holdings rules now) t.category).sum =
      totalValue (categorizedHoldings holdings rules now) -
        allocAmount (categorizedHoldings holdings rules now) "Uncategorized" := by
    have hs1' : ((filteredTargets targets).map fun t =>
        allocAmount (categorizedHoldings holdings rules now) t.category).sum =
        (((categorizedHoldings holdings rules now).filter
          (fun x => ((filteredTargets targets).map fun t => t.category).contains x.1)).map
            fun x => x.2).sum := hs1
    rw [hs1']
    linarith [htotal]
  have hmapcur : (out.summary.map fun r => r.currentAmount) =
      (filteredTargets targets).map fun t =>
        allocAmount (categorizedHoldings holdings rules now) t.category := by
    rw [hout]
    simp only [summaryRows, List.map_map]
    rfl
  have hmappct : (out.summary.map fun r => r.currentPercent) =
      (filteredTargets targets).map fun t =>
        if totalValue (categorizedHoldings holdings rules now) > 0 then
          allocAmount (categorizedHoldings holdings rules now) t.category /
            totalValue (categorizedHoldings holdings rules now)
        else 0 := by
    rw [hout]
    simp only [summaryRows, List.map_map]
    rfl
  refine ⟨htot, by rw [hmapcur]; exact hkey, ?_⟩
  rw [hmappct]
  by_cases htp : totalValue (categorizedHoldings holdings rules now) > 0
  · have hconv : ((filteredTargets targets).map fun t =>
        if totalValue (categorizedHoldings holdings rules now) > 0 then
          allocAmount (categorizedHoldings holdings rules now) t.category /
            totalValue (categorizedHoldings holdings rules now)
        else 0) =
        (filteredTargets targets).map fun t =>
          allocAmount (categorizedHoldings holdings rules now) t.category *
            (totalValue (categorizedHoldings holdings rules now))⁻¹ :=
      List.map_congr_left fun t _ => by rw [if_pos htp, div_eq_mul_inv]
    rw [hconv, List.sum_map_mul_right, hkey, ← div_eq_mul_inv, div_lt_one htp]
    linarith [hpos]
  · have hzero : ((filteredTargets targets).map fun t =>
        if totalValue (categorizedHoldings holdings rules now) > 0 then
          allocAmount (categorizedHoldings holdings rules now) t.category /
            totalValue (categorizedHoldings holdings rules now)
        else 0).sum = 0 := by
      apply List.sum_eq_zero
      intro x hx
      obtain ⟨t, ht, hre⟩ := List.mem_map.mp hx
      rw [← hre, if_neg htp]
    rw [hzero]
    norm_num

/-- Witness for C10: `$25` uncategorized next to `$75` of stocks; the
summary sums to `$75 = $100 - $25` and its percents to `3/4 < 1`. -/
theorem uncategorized_value_excluded_witness :
    analyze_portfolio [⟨"Z9", "", none, 25⟩, ⟨"AAPL", "", none, 75⟩]
      [⟨"EXACT_MATCH", "AAPL", "Stocks"⟩] [⟨"Stocks", 1, "G"⟩] none ⟨2025, 1, 1⟩ =
      some ⟨false, [⟨"Stocks", 1, "G", 75, 100, 3/4, -25⟩], [⟨"G", 75, 100, 3/4, 1⟩], none⟩ ∧
    0 < allocAmount (categorizedHoldings [⟨"Z9", "", none, 25⟩, ⟨"AAPL", "", none, 75⟩]
      [⟨"EXACT_MATCH", "AAPL", "Stocks"⟩] ⟨2025, 1, 1⟩) "Uncategorized" ∧
    totalValue (categorizedHoldings [⟨"Z9", "", none, 25⟩, ⟨"AAPL", "", none, 75⟩]
        [⟨"EXACT_MATCH", "AAPL", "Stocks"⟩] ⟨2025, 1, 1⟩) =
      ([(⟨"Z9", "", none, 25⟩ : Holding), ⟨"AAPL", "", none, 75⟩].map
        fun h => h.currentValue).sum ∧
    (((⟨false, [⟨"Stocks", 1, "G", 75, 100, 3/4, -25⟩], [⟨"G", 75, 100, 3/4, 1⟩], none⟩ :
        AnalysisOutput).summary.map fun r => r.currentAmount).sum =
      totalValue (categorizedHoldings [⟨"Z9", "", none, 25⟩, ⟨"AAPL", "", none, 75⟩]
          [⟨"EXACT_MATCH", "AAPL", "Stocks"⟩] ⟨2025, 1, 1⟩) -
        allocAmount (categorizedHoldings [⟨"Z9", "", none, 25⟩, ⟨"AAPL", "", none, 75⟩]
          [⟨"EXACT_MATCH", "AAPL", "Stocks"⟩] ⟨2025, 1, 1⟩) "Uncategorized") ∧
    (((⟨false, [⟨"Stocks", 1, "G", 75, 100, 3/4, -25⟩], [⟨"G", 75, 100, 3/4, 1⟩], none⟩ :
        AnalysisOutput).summary.map fun r => r.currentPercent).sum < 1) := by
  have h := uncategorized_value_excluded
    [⟨"Z9", "", none, 25⟩, ⟨"AAPL", "", none, 75⟩] [⟨"EXACT_MATCH", "AAPL", "Stocks"⟩]
    [⟨"Stocks", 1, "G"⟩] none ⟨2025, 1, 1⟩
    ⟨false, [⟨"Stocks", 1, "G", 75, 100, 3/4, -25⟩], [⟨"G", 75, 100, 3/4, 1⟩], none⟩
    (by with_unfolding_all rfl)
    (of_decide_eq_true (by with_unfolding_all rfl))
    (of_decide_eq_true (by with_unfolding_all rfl))
    (of_decide_eq_true (by with_unfolding_all rfl))
  exact ⟨by with_unfolding_all rfl, of_decide_eq_true (by with_unfolding_all rfl),
    h.1, h.2.1, h.2.2⟩

/-- Counterexample to C10 as stated: when a target row is itself named
`"Uncategorized"`, the run completes, the uncategorized value (`$100 > 0`)
is inside the summary, the summary Current Amounts sum to `$100`, not
`total - uncategorized = $0`, and the Current Percents sum to exactly 1,
not strictly less. -/
theorem uncategorized_value_excluded_cex :
    analyze_portfolio [⟨"Z9", "", none, 100⟩] [] [⟨"Uncategorized", 1, "R"⟩] none
      ⟨2025, 1, 1⟩ =
      some ⟨false, [⟨"Uncategorized", 1, "R", 100, 100, 1, 0⟩], [⟨"R", 100, 100, 1, 1⟩],
        none⟩ ∧
    0 < allocAmount (categorizedHoldings [⟨"Z9", "", none, 100⟩] [] ⟨2025, 1, 1⟩)
      "Uncategorized" ∧
    ¬ ((((⟨false, [⟨"Uncategorized", 1, "R", 100, 100, 1, 0⟩], [⟨"R", 100, 100, 1, 1⟩],
          none⟩ : AnalysisOutput).summary.map fun r => r.currentAmount).sum =
        totalValue (categorizedHoldings [⟨"Z9", "", none, 100⟩] [] ⟨2025, 1, 1⟩) -
          allocAmount (categorizedHoldings [⟨"Z9", "", none, 100⟩] [] ⟨2025, 1, 1⟩)
            "Uncategorized") ∧
      (((⟨false, [⟨"Uncategorized", 1, "R", 100, 100, 1, 0⟩], [⟨"R", 100, 100, 1, 1⟩],
          none⟩ : AnalysisOutput).summary.map fun r => r.currentPercent).sum < 1)) :=
  of_decide_eq_true (by with_unfolding_all rfl)
/-- Reading a concatenation digit-folds the first part, then continues with
the accumulated value. -/
theorem parseNatFrom_append (acc : Nat) (xs ys : List Char) :
    parseNatFrom acc (xs ++ ys) = (parseNatFrom acc xs).bind fun v => parseNatFrom v ys := by
  induction xs generalizing acc with
  | nil => simp [parseNatFrom]
  | cons c cs ih =>
    cases hd : digitVal? c with
    | none => simp [parseNatFrom, hd]
    | some d => simp [parseNatFrom, hd, ih]

/-- The rendered digit character reads back as the digit value. -/
theorem digitVal?_digitChar (n : Nat) : digitVal? (digitChar n) = some (n % 10) := by
  have hb : ∀ k, k < 10 → digitVal? (Char.ofNat (48 + k)) = some k := by decide
  have h10 : n % 10 < 10 := Nat.mod_lt _ (by norm_num)
  simpa [digitChar] using hb (n % 10) h10

/-- Every rendered digit character is an ASCII digit. -/
theorem digitChar_bounds (n : Nat) : '0' ≤ digitChar n ∧ digitChar n ≤ '9' := by
  have hb : ∀ k, k < 10 → '0' ≤ Char.ofNat (48 + k) ∧ Char.ofNat (48 + k) ≤ '9' := by decide
  have h10 : n % 10 < 10 := Nat.mod_lt _ (by norm_num)
  simpa [digitChar] using hb (n % 10) h10

/-- Every character of a digit rendering is an ASCII digit. -/
theorem natDigitsAux_digits (fuel : Nat) :
    ∀ n c, c ∈ natDigitsAux fuel n → '0' ≤ c ∧ c ≤ '9' := by
  induction fuel with
  | zero =>
    intro n c hc
    cases n <;> simp [natDigitsAux] at hc
  | succ fuel ih =>
    intro n c hc
    cases n with
    | zero => simp [natDigitsAux] at hc
    | succ m =>
      simp only [natDigitsAux, List.mem_append, List.mem_singleton] at hc
      rcases hc with hc | hc
      · exact ih _ _ hc
      · subst hc; exact digitChar_bounds _
/-- Value read back from a digit rendering: the accumulator is shifted by
the rendering's length and the rendered number is added. -/
theorem parseNatFrom_natDigitsAux :
    ∀ fuel n acc, n ≤ fuel →
      parseNatFrom acc (natDigitsAux fuel n) =
        some (acc * 10 ^ (natDigitsAux fuel n).length + n) := by
  intro fuel
  induction fuel with
  | zero =>
    intro n acc hn
    interval_cases n
    simp [natDigitsAux, parseNatFrom]
  | succ fuel ih =>
    intro n acc hn
    cases n with
    | zero => simp [natDigitsAux, parseNatFrom]
    | succ m =>
      have hdiv : (m + 1) / 10 ≤ fuel := by
        have h1 : (m + 1) / 10 < m + 1 := Nat.div_lt_self (Nat.succ_pos m) (by norm_num)
        omega
      show parseNatFrom acc (natDigitsAux fuel ((m + 1) / 10) ++ [digitChar ((m + 1) % 10)]) =
        some (acc * 10 ^ (natDigitsAux fuel ((m + 1) / 10) ++
          [digitChar ((m + 1) % 10)]).length + (m + 1))
      rw [parseNatFrom_append, ih _ acc hdiv]
      have hstep : parseNatFrom (acc * 10 ^ (natDigitsAux fuel ((m + 1) / 10)).length +
          (m + 1) / 10) [digitChar ((m + 1) % 10)] =
          some ((acc * 10 ^ (natDigitsAux fuel ((m + 1) / 10)).length +
            (m + 1) / 10) * 10 + (m + 1) % 10) := by
        simp [parseNatFrom, digitVal?_digitChar, Nat.mod_mod_of_dvd]
      rw [Option.some_bind, hstep]
      congr 1
      have hmod : 10 * ((m + 1) / 10) + (m + 1) % 10 = m + 1 := Nat.div_add_mod (m + 1) 10
      have hlen : (natDigitsAux fuel ((m + 1) / 10) ++ [digitChar ((m + 1) % 10)]).length =
          (natDigitsAux fuel ((m + 1) / 10)).length + 1 := by simp
      rw [hlen, pow_succ]
      calc (acc * 10 ^ (natDigitsAux fuel ((m + 1) / 10)).length + (m + 1) / 10) * 10 +
            (m + 1) % 10
          = acc * (10 ^ (natDigitsAux fuel ((m + 1) / 10)).length * 10) +
            (10 * ((m + 1) / 10) + (m + 1) % 10) := by ring
        _ = acc * (10 ^ (natDigitsAux fuel ((m + 1) / 10)).length * 10) + (m + 1) := by
            rw [hmod]

/-- The integer-part rendering reads back as its number. -/
theorem parseNatFrom_renderNat (n : Nat) : parseNatFrom 0 (renderNat n) = some n := by
  rw [renderNat]
  split_ifs with h
  · subst h; rfl
  · simpa using parseNatFrom_natDigitsAux n n 0 le_rfl

/-- Every character of the integer-part rendering is an ASCII digit. -/
theorem renderNat_digits (n : Nat) : ∀ c ∈ renderNat n, '0' ≤ c ∧ c ≤ '9' := by
  intro c hc
  rw [renderNat] at hc
  split_ifs at hc with h
  · simp at hc; subst hc; decide
  · exact natDigitsAux_digits n n c hc

/-- Removing the grouping commas recovers the raw digit list (for any
filter dropping `,`). -/
theorem filter_group3Rev (p : Char → Bool) (hp : p ',' = false) :
    ∀ N l, l.length ≤ N → (group3Rev l).filter p = l.filter p := by
  intro N
  induction N with
  | zero =>
    intro l hl
    have : l = [] := List.eq_nil_of_length_eq_zero (Nat.le_zero.mp hl)
    subst this
    rfl
  | succ N ih =>
    intro l hl
    match l with
    | [] => rfl
    | [a] => rfl
    | [a, b] => rfl
    | [a, b, c] => rfl
    | a :: b :: c :: d :: rest =>
      have hrest : (d :: rest).length ≤ N := by
        simp only [List.length_cons] at hl ⊢
        omega
      show (a :: b :: c :: ',' :: group3Rev (d :: rest)).filter p =
        (a :: b :: c :: d :: rest).filter p
      simp [List.filter_cons, hp, ih _ hrest]
/-- Splitting at the dot finds the first dot. -/
theorem splitAtDot_append (xs ys : List Char) (hx : '.' ∉ xs) :
    splitAtDot (xs ++ '.' :: ys) = (xs, some ys) := by
  induction xs with
  | nil => simp [splitAtDot]
  | cons c cs ih =>
    have hc : (c == '.') = false := by
      simp only [List.mem_cons, not_or] at hx
      simp [Ne.symm hx.1]
    have ih' := ih (by simp only [List.mem_cons, not_or] at hx; exact hx.2)
    simp [splitAtDot, hc, ih']

/-- The two-digit cents field reads back as its value. -/
theorem parseNatFrom_pad2 (r : Nat) (hr : r < 100) :
    parseNatFrom 0 (pad2 r) = some r := by
  have h1 : r / 10 % 10 = r / 10 := Nat.mod_eq_of_lt (by omega)
  simp only [pad2, parseNatFrom, digitVal?_digitChar, h1, Nat.mod_mod_of_dvd]
  congr 1
  omega

/-- The cents field never contains a dot, a dollar sign or a comma. -/
theorem pad2_digits (r : Nat) : ∀ c ∈ pad2 r, '0' ≤ c ∧ c ≤ '9' := by
  intro c hc
  simp only [pad2, List.mem_cons, List.not_mem_nil, or_false] at hc
  rcases hc with hc | hc <;> (subst hc; exact digitChar_bounds _)
/-- An ASCII digit survives the cleaner's `$`/`,` strip. -/
theorem digit_survives_strip (c : Char) (h1 : '0' ≤ c) (h2 : c ≤ '9') :
    (c != '$' && c != ',') = true := by
  have h3 : c ≠ '$' := fun h => absurd h1 (by subst h; decide)
  have h4 : c ≠ ',' := fun h => absurd h1 (by subst h; decide)
  simp [h3, h4]

/-- C8: for every non-negative amount with at most two decimal places
(`(q * 100).den = 1`), formatting with the writer's `$#,##0.00` rule and
re-parsing with the companion cleaner's rule (strip `$` and `,`, coerce to
numeric) returns the amount; in particular `"$1,234.56"` parses back to
`1234.56`. -/
theorem currency_round_trip (q : ℚ) (h0 : 0 ≤ q) (hden : (q * 100).den = 1) :
    toNumeric (stripCurrency (formatCurrency q)) = some q ∧
    toNumeric (stripCurrency "$1,234.56") = some (1234.56 : ℚ) := by
  refine ⟨?_, by with_unfolding_all rfl⟩
  have hq100 : ((q * 100).num : ℚ) = q * 100 := (Rat.den_eq_one_iff _).mp hden
  have hnum0 : 0 ≤ (q * 100).num := Rat.num_nonneg.mpr (by positivity)
  have hfloor : ⌊q * 100 + 1/2⌋ = (q * 100).num := by
    rw [← hq100, add_comm, Int.floor_add_int]
    norm_num
  have hNq0 : (((q * 100).num.toNat : ℕ) : ℚ) = q * 100 := by
    have h1 : (((q * 100).num.toNat : ℕ) : ℤ) = (q * 100).num := Int.toNat_of_nonneg hnum0
    calc (((q * 100).num.toNat : ℕ) : ℚ)
        = ((((q * 100).num.toNat : ℕ) : ℤ) : ℚ) := by push_cast; ring
      _ = ((q * 100).num : ℚ) := by rw [h1]
      _ = q * 100 := hq100
  set N : Nat := (q * 100).num.toNat with hN
  have hNq : (N : ℚ) = q * 100 := hNq0
  have hcents : (⌊q * 100 + 1/2⌋).toNat = N := by rw [hfloor, hN]
  have hfmt : formatCurrency q =
      String.mk ('$' :: commaGroup (renderNat (N / 100)) ++ '.' :: pad2 (N % 100)) := by
    rw [formatCurrency, hcents]
  have hfiltint : (commaGroup (renderNat (N / 100))).filter (fun c => c != '$' && c != ',') =
      renderNat (N / 100) := by
    rw [commaGroup, List.filter_reverse]
    rw [filter_group3Rev _ (by decide) (renderNat (N / 100)).reverse.length _ le_rfl]
    rw [List.filter_reverse, List.reverse_reverse]
    exact List.filter_eq_self.mpr fun c hc =>
      digit_survives_strip c (renderNat_digits _ c hc).1 (renderNat_digits _ c hc).2
  have hfiltfrac : (pad2 (N % 100)).filter (fun c => c != '$' && c != ',') =
      pad2 (N % 100) :=
    List.filter_eq_self.mpr fun c hc =>
      digit_survives_strip c (pad2_digits _ c hc).1 (pad2_digits _ c hc).2
  have hstrip : stripCurrency (formatCurrency q) =
      String.mk (renderNat (N / 100) ++ '.' :: pad2 (N % 100)) := by
    rw [hfmt, stripCurrency]
    congr 1
    show ('$' :: (commaGroup (renderNat (N / 100)) ++ '.' :: pad2 (N % 100))).filter
        (fun c => c != '$' && c != ',') = _
    have hp1 : (('$' : Char) != '$' && ('$' : Char) != ',') = false := rfl
    have hp2 : (('.' : Char) != '$' && ('.' : Char) != ',') = true := rfl
    simp only [List.filter_cons, List.filter_append, hp1, hp2, Bool.false_eq_true,
      if_false, if_true]
    rw [hfiltint, hfiltfrac]
  rw [hstrip]
  have hdot : '.' ∉ renderNat (N / 100) := fun hmem =>
    absurd (renderNat_digits _ _ hmem).1 (by decide)
  have htl : (String.mk (renderNat (N / 100) ++ '.' :: pad2 (N % 100))).toList =
      renderNat (N / 100) ++ '.' :: pad2 (N % 100) := rfl
  rw [toNumeric, htl, splitAtDot_append _ _ hdot]
  have hne : (pad2 (N % 100)).isEmpty = false := rfl
  simp only [hne, Bool.and_false, Bool.false_eq_true, if_false,
    parseNatFrom_renderNat, parseNatFrom_pad2 (N % 100) (Nat.mod_lt _ (by norm_num)),
    Option.some_bind, Option.map_some]
  have hlen : (pad2 (N % 100)).length = 2 := rfl
  rw [hlen]
  have hq : q = (N : ℚ) / 100 := by
    rw [hNq]
    field_simp
  have hsplitN : ((N : ℚ)) = ((N / 100 : Nat) : ℚ) * 100 + ((N % 100 : Nat) : ℚ) := by
    exact_mod_cast (by omega : N = N / 100 * 100 + N % 100)
  rw [hq, hsplitN]
  field_simp
  ring

/-- Witness for C8: the round trip at `1234.56`. -/
theorem currency_round_trip_witness :
    (0 : ℚ) ≤ 1234.56 ∧ ((1234.56 : ℚ) * 100).den = 1 ∧
    toNumeric (stripCurrency (formatCurrency (1234.56 : ℚ))) = some (1234.56 : ℚ) :=
  ⟨by norm_num, by with_unfolding_all rfl,
    (currency_round_trip (1234.56 : ℚ) (by norm_num) (by with_unfolding_all rfl)).1⟩
